import Mathlib

/-!
Verification of the NER repository's entity-extraction and evaluation core.

The development shallowly embeds the Python modules `ner.py`, `custom_ner.py`,
`combined_ner.py` and `evaluation.py`.  External libraries are modelled at
their interfaces: spaCy's `doc.ents` and the `re` match stream are inputs
(lists of candidates with character spans), `sklearn` metrics are given their
documented definitions with `zero_division=0`, and the `json` module is
modelled at the level of parsed JSON values (for values built from strings,
lists and string-keyed objects, `json.load` after `json.dump` is the
identity on the value).
-/

namespace NER

/-- An output entity, the dict `{"entity": ..., "type": ...}`. -/
structure Entity where
  entity : String
  type : String
deriving DecidableEq, Repr

/-- A half-open character span `(start_char, end_char)`. -/
abbrev Span := Nat × Nat

/-- The overlap test from `ner.py` line 71:
`not (span[1] <= proc_span[0] or span[0] >= proc_span[1])`. -/
def overlapB (s p : Span) : Bool :=
  !(decide (s.2 ≤ p.1) || decide (s.1 ≥ p.2))

/-- A spaCy entity candidate: `ent.text`, `ent.label_`, `ent.start_char`,
`ent.end_char`.  spaCy itself is external; its output stream is an input
here. -/
structure SpacyEnt where
  text : String
  label : String
  startChar : Nat
  endChar : Nat
deriving DecidableEq, Repr

/-- The span of a spaCy candidate, `(ent.start_char, ent.end_char)`. -/
def SpacyEnt.span (e : SpacyEnt) : Span := (e.startChar, e.endChar)

/-- A regex match from the legal-term pass: `match.group()`, `match.start()`,
`match.end()`.  The `re` module is external; its match stream is an input. -/
structure RegexMatch where
  text : String
  startPos : Nat
  stopPos : Nat
deriving DecidableEq, Repr

/-- The span of a regex match. -/
def RegexMatch.span (m : RegexMatch) : Span := (m.startPos, m.stopPos)

/-- An accepted entity instrumented with the span it was recorded at.
Dropping the span gives the dict the Python code emits. -/
structure AccEntity where
  span : Span
  entity : String
  type : String
deriving DecidableEq, Repr

/-- Forget the span, leaving the emitted dict. -/
def AccEntity.toEntity (a : AccEntity) : Entity := ⟨a.entity, a.type⟩

/-- The mutable state of `extract_entities`: the `entities` output list and
the `processed_spans` set (modelled as a list; only membership and
traversal are used). -/
structure ExtState where
  entities : List AccEntity
  processed : List Span
deriving DecidableEq, Repr

/-- The `if/elif` chain of `ner.py` lines 47-52 mapping spaCy labels to
output types; labels outside the chain produce no entity. -/
def classifyLabel (l : String) : Option String :=
  if l = "PERSON" then some "Name"
  else if l = "DATE" then some "Date"
  else if l = "MONEY" then some "MonetaryAmount"
  else none

/-- One iteration of the spaCy-entity loop (`ner.py` lines 35-52): skip the
candidate if its exact span was already processed, otherwise record the
span and, when the label classifies, append the entity. -/
def statStep (st : ExtState) (e : SpacyEnt) : ExtState :=
  if e.span ∈ st.processed then st
  else
    match classifyLabel e.label with
    | some t => ⟨st.entities ++ [⟨e.span, e.text, t⟩], e.span :: st.processed⟩
    | none => ⟨st.entities, e.span :: st.processed⟩

/-- One iteration of the legal-term loop (`ner.py` lines 62-77): append the
match as a `LegalTerm` and claim its span unless it overlaps some
processed span. -/
def legalStep (st : ExtState) (m : RegexMatch) : ExtState :=
  if st.processed.any (fun p => overlapB m.span p) then st
  else ⟨st.entities ++ [⟨m.span, m.text, "LegalTerm"⟩], m.span :: st.processed⟩

/-- `extract_entities` of `ner.py`, instrumented with spans: the spaCy pass
followed by the legal-term pass, starting from empty `entities` and
`processed_spans`. -/
def extract_entitiesSpans (ents : List SpacyEnt) (rmatches : List RegexMatch) : ExtState :=
  rmatches.foldl legalStep (ents.foldl statStep ⟨[], []⟩)

/-- `extract_entities` of `ner.py`: the list of emitted entity dicts. -/
def extract_entities (ents : List SpacyEnt) (rmatches : List RegexMatch) : List Entity :=
  (extract_entitiesSpans ents rmatches).entities.map AccEntity.toEntity

/-- `CUSTOM_ENTITIES` of `custom_ner.py`. -/
def CUSTOM_ENTITIES : List String := ["CLIENT", "ASSET", "BENEFICIARY", "LEGAL_CLAUSE"]

/-- `extract_custom_entities` of `custom_ner.py`, instrumented with spans:
keep the custom model's candidates whose label is a custom label. -/
def extract_custom_entitiesSpans (ents : List SpacyEnt) : List AccEntity :=
  ents.filterMap fun e =>
    if e.label ∈ CUSTOM_ENTITIES then some ⟨e.span, e.text, e.label⟩ else none

/-- The state of the optional domain-trained model in `extract_all_entities`:
the path does not exist, `spacy.load` raised, or the model loaded and
produced the given candidates for the input text. -/
inductive CustomModel where
  | absent : CustomModel
  | loadFailure (msg : String) : CustomModel
  | loaded (ents : List SpacyEnt) : CustomModel
deriving DecidableEq, Repr

/-- The custom candidate list `extract_all_entities` ends up with
(`combined_ner.py` lines 33-44): empty when the model is absent or raised
during loading, otherwise `extract_custom_entities`' output. -/
def custom_candidates : CustomModel → List AccEntity
  | .absent => []
  | .loadFailure _ => []
  | .loaded ce => extract_custom_entitiesSpans ce

/-- `extract_all_entities` of `combined_ner.py`, instrumented with spans:
`standard_entities + custom_entities` (line 47) — concatenation, with no
cross-source conflict resolution. -/
def extract_all_entitiesSpans (ents : List SpacyEnt) (rmatches : List RegexMatch)
    (custom : CustomModel) : List AccEntity :=
  (extract_entitiesSpans ents rmatches).entities ++ custom_candidates custom

/-- `extract_all_entities` of `combined_ner.py`: the emitted dicts. -/
def extract_all_entities (ents : List SpacyEnt) (rmatches : List RegexMatch)
    (custom : CustomModel) : List Entity :=
  (extract_all_entitiesSpans ents rmatches custom).map AccEntity.toEntity

/-- Boolean test that no two entities in the list have overlapping spans. -/
def noOverlapsB : List AccEntity → Bool
  | [] => true
  | a :: rest => rest.all (fun b => !(overlapB a.span b.span)) && noOverlapsB rest

/-- Boolean test that the spans in the list are pairwise non-overlapping. -/
def disjointSpansB : List Span → Bool
  | [] => true
  | s :: rest => rest.all (fun p => !(overlapB s p)) && disjointSpansB rest

/-- spaCy guarantees `doc.ents` is a sequence of non-overlapping spans; in
this embedding the candidate stream is arbitrary, so the guarantee becomes
the hypothesis that any two candidate spans are equal or disjoint. -/
def EqOrDisjoint (ents : List SpacyEnt) : Prop :=
  ∀ e ∈ ents, ∀ e' ∈ ents, e.span = e'.span ∨ overlapB e.span e'.span = false

/-- Lookup in a string-keyed association list; models reading a Python dict
(and the flat file-system map used for the dataset store). -/
def alookup {α : Type} : List (String × α) → String → Option α
  | [], _ => none
  | p :: rest, k => if p.1 = k then some p.2 else alookup rest k

/-- Assignment `d[k] = v` on a string-keyed association list; models a Python
dict assignment: an existing key keeps its position and gets the new value,
a fresh key is appended (insertion order). -/
def assocSet {α : Type} : List (String × α) → String → α → List (String × α)
  | [], k, v => [(k, v)]
  | p :: rest, k, v => if p.1 = k then (k, v) :: rest else p :: assocSet rest k v

/-- The distinct elements of a list in order of first appearance; models
iterating over `set(...)` built from the list (the metrics computed from it
do not depend on the iteration order, so one canonical order is chosen). -/
def distinctList (l : List String) : List String :=
  l.foldl (fun acc s => if s ∈ acc then acc else acc ++ [s]) []

/-- The precision/recall/F1 record one entity type gets. -/
structure Metrics where
  precision : ℚ
  «recall» : ℚ
  f1 : ℚ
deriving DecidableEq, Repr

/-- A pair of binary labels `(y_true[i], y_pred[i])` for one entity text. -/
abbrev LabelPair := Bool × Bool

/-- True positives of a binary label vector pair. -/
def tpCount (ys : List LabelPair) : Nat := (ys.filter fun y => y.1 && y.2).length

/-- False positives. -/
def fpCount (ys : List LabelPair) : Nat := (ys.filter fun y => !y.1 && y.2).length

/-- False negatives. -/
def fnCount (ys : List LabelPair) : Nat := (ys.filter fun y => y.1 && !y.2).length

/-- `sklearn.metrics.precision_score(y_true, y_pred, zero_division=0)` on
binary labels: `TP / (TP + FP)`, and `0` when no positive was predicted
(this includes empty label vectors). -/
def precision_score (ys : List LabelPair) : ℚ :=
  if tpCount ys + fpCount ys = 0 then 0
  else (tpCount ys : ℚ) / ((tpCount ys : ℚ) + (fpCount ys : ℚ))

/-- `sklearn.metrics.recall_score(y_true, y_pred, zero_division=0)`:
`TP / (TP + FN)`, and `0` when the ground truth has no positive. -/
def recall_score (ys : List LabelPair) : ℚ :=
  if tpCount ys + fnCount ys = 0 then 0
  else (tpCount ys : ℚ) / ((tpCount ys : ℚ) + (fnCount ys : ℚ))

/-- `sklearn.metrics.f1_score(y_true, y_pred, zero_division=0)`:
`2*TP / (2*TP + FP + FN)`, and `0` when that denominator is `0`. -/
def f1_score (ys : List LabelPair) : ℚ :=
  if 2 * tpCount ys + fpCount ys + fnCount ys = 0 then 0
  else (2 * tpCount ys : ℚ) / ((2 * tpCount ys : ℚ) + (fpCount ys : ℚ) + (fnCount ys : ℚ))

/-- `any(e["entity"] == entity and e["type"] == entity_type for e in es)`. -/
def typeInd (es : List Entity) (t x : String) : Bool :=
  es.any fun e => decide (e.entity = x) && decide (e.type = t)

/-- `any(e["entity"] == entity for e in es)`. -/
def textInd (es : List Entity) (x : String) : Bool :=
  es.any fun e => decide (e.entity = x)

/-- The binary label vectors for one entity type over the entity-text
universe (`evaluation.py` lines 65-79), as a list of
`(y_true[i], y_pred[i])` pairs. -/
def binLabels (true_entities pred_entities : List Entity) (t : String)
    (univ : List String) : List LabelPair :=
  univ.map fun x => (typeInd true_entities t x, typeInd pred_entities t x)

/-- The type-agnostic label vectors for the `"overall"` entry
(`evaluation.py` lines 89-97). -/
def overallLabels (true_entities pred_entities : List Entity)
    (univ : List String) : List LabelPair :=
  univ.map fun x => (textInd true_entities x, textInd pred_entities x)

/-- `entity_types` (`evaluation.py` line 60): the distinct types in the
union of ground truth and predictions. -/
def entityTypesOf (true_entities pred_entities : List Entity) : List String :=
  distinctList ((true_entities ++ pred_entities).map Entity.type)

/-- `all_entities` (`evaluation.py` lines 69 and 91): the distinct entity
texts in the union of ground truth and predictions. -/
def allEntitiesOf (true_entities pred_entities : List Entity) : List String :=
  distinctList ((true_entities ++ pred_entities).map Entity.entity)

/-- The `{precision, recall, f1}` record computed for one entity type. -/
def typeMetrics (true_entities pred_entities : List Entity) (t : String) : Metrics :=
  ⟨precision_score (binLabels true_entities pred_entities t
      (allEntitiesOf true_entities pred_entities)),
    recall_score (binLabels true_entities pred_entities t
      (allEntitiesOf true_entities pred_entities)),
    f1_score (binLabels true_entities pred_entities t
      (allEntitiesOf true_entities pred_entities))⟩

/-- The `{precision, recall, f1}` record computed for the `"overall"` key. -/
def overallMetrics (true_entities pred_entities : List Entity) : Metrics :=
  ⟨precision_score (overallLabels true_entities pred_entities
      (allEntitiesOf true_entities pred_entities)),
    recall_score (overallLabels true_entities pred_entities
      (allEntitiesOf true_entities pred_entities)),
    f1_score (overallLabels true_entities pred_entities
      (allEntitiesOf true_entities pred_entities))⟩

/-- `NEREvaluator.evaluate_predictions`: per-type precision/recall/F1 over
the universe of distinct entity texts (computed only when the label
vectors are non-empty, `evaluation.py` line 81), then the `"overall"`
entry computed the same way but ignoring types.  The result dict is an
insertion-ordered association list. -/
def evaluate_predictions (true_entities pred_entities : List Entity) :
    List (String × Metrics) :=
  let results := (entityTypesOf true_entities pred_entities).foldl (fun r t =>
    if 0 < (binLabels true_entities pred_entities t
        (allEntitiesOf true_entities pred_entities)).length then
      assocSet r t (typeMetrics true_entities pred_entities t)
    else r) []
  assocSet results "overall" (overallMetrics true_entities pred_entities)

/-- One labeled test case `{"text": ..., "entities": [...]}`. -/
structure TestCase where
  text : String
  entities : List Entity
deriving DecidableEq, Repr

/-- The per-type lists of per-case metric values accumulated by
`evaluate_model`'s `all_results` dict. -/
structure MetricLists where
  precisions : List ℚ
  recalls : List ℚ
  f1s : List ℚ
deriving DecidableEq, Repr

/-- The `all_results` entry a fresh entity type starts from. -/
def emptyLists : MetricLists := ⟨[], [], []⟩

/-- Append one case's scores for one entity type to `all_results`
(`evaluation.py` lines 130-138). -/
def aggStep (ar : List (String × MetricLists)) (p : String × Metrics) :
    List (String × MetricLists) :=
  let cur := (alookup ar p.1).getD emptyLists
  assocSet ar p.1
    ⟨cur.precisions ++ [p.2.precision], cur.recalls ++ [p.2.«recall»], cur.f1s ++ [p.2.f1]⟩

/-- `sum(values) / len(values)`. -/
def mean (l : List ℚ) : ℚ := l.sum / (l.length : ℚ)

/-- `NEREvaluator.evaluate_model`: score every case with
`evaluate_predictions`, accumulate each type's metric values across the
cases in which the type appears, then average each list. -/
def evaluate_model (test_data : List TestCase)
    (prediction_function : String → List Entity) : List (String × Metrics) :=
  let all_results := test_data.foldl (fun ar tc =>
    (evaluate_predictions tc.entities (prediction_function tc.text)).foldl aggStep ar) []
  all_results.map fun p => (p.1, ⟨mean p.2.precisions, mean p.2.recalls, mean p.2.f1s⟩)

/-- A parsed JSON value, as the `json` module hands it to Python (numbers,
booleans and null never occur in the dataset store's values and are
omitted).  Files hold parsed values: for these values `json.load` after
`json.dump` is the identity, so serialization is not re-modelled. -/
inductive JVal where
  | jstr (s : String) : JVal
  | jarr (items : List JVal) : JVal
  | jobj (fields : List (String × JVal)) : JVal

/-- A flat file system: a map from path to the JSON value stored there. -/
abbrev FS := List (String × JVal)

/-- Failure of a file-system operation. -/
inductive FileError where
  | notFound : FileError
deriving DecidableEq, Repr

/-- Index of the last `'/'` in a character list, if any. -/
def rfindSlash (p : List Char) : Option Nat :=
  (List.range p.length).foldl
    (fun acc i => if p.get? i = some '/' then some i else acc) none

/-- Is the character list made of slashes only? -/
def allSlashes (l : List Char) : Bool := l.all (· = '/')

/-- Drop trailing slashes. -/
def rstripSlashes (l : List Char) : List Char :=
  (l.reverse.dropWhile (· = '/')).reverse

/-- `os.path.dirname` (POSIX): the text up to the final `'/'`, with trailing
slashes stripped unless the head is slashes only; `""` when the path has no
slash. -/
def dirname (p : String) : String :=
  match rfindSlash p.data with
  | none => ""
  | some i =>
    let head := p.data.take (i + 1)
    if head ≠ [] ∧ ¬ allSlashes head then ⟨rstripSlashes head⟩ else ⟨head⟩

/-- `NEREvaluator.load_test_dataset`: `if os.path.exists(file_path)` read and
parse the file into `test_data`, otherwise fall through — the method
returns with `test_data` unchanged and raises nothing.  The error channel
is in the type so that failure behaviour can be stated, but no code path
produces an error. -/
def load_test_dataset (fs : FS) (file_path : String) (test_data : JVal) :
    Except FileError JVal :=
  match alookup fs file_path with
  | some content => .ok content
  | none => .ok test_data

/-- `NEREvaluator.save_test_dataset`: `os.makedirs(os.path.dirname(file_path),
exist_ok=True)` then write `test_data` as JSON.  `os.makedirs("")` raises
`FileNotFoundError`, which happens exactly when the path has no directory
component; otherwise the directories are created and the write succeeds. -/
def save_test_dataset (fs : FS) (file_path : String) (test_data : JVal) :
    Except FileError FS :=
  if dirname file_path = "" then .error .notFound
  else .ok (assocSet fs file_path test_data)

/-- Encode one entity as its JSON object. -/
def encodeEntity (e : Entity) : JVal :=
  .jobj [("entity", .jstr e.entity), ("type", .jstr e.type)]

/-- Encode one test case as its JSON object. -/
def encodeCase (c : TestCase) : JVal :=
  .jobj [("text", .jstr c.text), ("entities", .jarr (c.entities.map encodeEntity))]

/-- Encode a dataset as the JSON array `save_test_dataset` writes. -/
def encodeDataset (d : List TestCase) : JVal :=
  .jarr (d.map encodeCase)

/-- Decode each element of a JSON array, failing if any element fails. -/
def decodeList {α : Type} (f : JVal → Option α) : List JVal → Option (List α)
  | [] => some []
  | x :: xs =>
    match f x, decodeList f xs with
    | some a, some as => some (a :: as)
    | _, _ => none

/-- Decode an entity object. -/
def decodeEntity : JVal → Option Entity
  | .jobj [("entity", .jstr s), ("type", .jstr t)] => some ⟨s, t⟩
  | _ => none

/-- Decode a test-case object. -/
def decodeCase : JVal → Option TestCase
  | .jobj [("text", .jstr tx), ("entities", .jarr es)] =>
    (decodeList decodeEntity es).map (TestCase.mk tx)
  | _ => none

/-- Decode a dataset array. -/
def decodeDataset : JVal → Option (List TestCase)
  | .jarr cs => decodeList decodeCase cs
  | _ => none

/-- Does the case's text contain a non-ASCII character? -/
def caseHasNonAscii (c : TestCase) : Bool :=
  c.text.data.any fun ch => 127 < ch.toNat

/-! ## Lemmas about spans and the extraction passes -/

theorem overlapB_false_iff (s p : Span) :
    overlapB s p = false ↔ s.2 ≤ p.1 ∨ p.2 ≤ s.1 := by
  simp only [overlapB, Bool.not_eq_false', Bool.or_eq_true, decide_eq_true_eq, ge_iff_le]

theorem overlapB_comm_false {s p : Span} (h : overlapB s p = false) :
    overlapB p s = false := by
  rw [overlapB_false_iff] at h ⊢
  omega

theorem noOverlapsB_iff (l : List AccEntity) :
    noOverlapsB l = true ↔
      List.Pairwise (fun a b => overlapB a.span b.span = false) l := by
  induction l with
  | nil => simp [noOverlapsB]
  | cons a rest ih =>
    simp [noOverlapsB, List.pairwise_cons, ih, and_comm]

theorem disjointSpansB_iff (l : List Span) :
    disjointSpansB l = true ↔
      List.Pairwise (fun s p => overlapB s p = false) l := by
  induction l with
  | nil => simp [disjointSpansB]
  | cons s rest ih =>
    simp [disjointSpansB, List.pairwise_cons, ih, and_comm]

/-- The invariant both passes of `extract_entities` maintain: the processed
spans are pairwise non-overlapping, every emitted entity sits at a
processed span, and the emitted entities are pairwise non-overlapping. -/
def StateInv (st : ExtState) : Prop :=
  List.Pairwise (fun s p => overlapB s p = false) st.processed ∧
  (∀ a ∈ st.entities, a.span ∈ st.processed) ∧
  List.Pairwise (fun a b => overlapB a.span b.span = false) st.entities

theorem statStep_processed (st : ExtState) (e : SpacyEnt) (h : e.span ∉ st.processed) :
    (statStep st e).processed = e.span :: st.processed := by
  simp only [statStep, if_neg h]
  cases classifyLabel e.label <;> rfl

theorem statStep_entities (st : ExtState) (e : SpacyEnt) (h : e.span ∉ st.processed) :
    (statStep st e).entities = st.entities ∨
      ∃ x : AccEntity, x.span = e.span ∧ (statStep st e).entities = st.entities ++ [x] := by
  simp only [statStep, if_neg h]
  cases hc : classifyLabel e.label with
  | none => exact Or.inl rfl
  | some t => exact Or.inr ⟨⟨e.span, e.text, t⟩, rfl, rfl⟩

/-- The spaCy pass preserves the invariant and keeps the processed spans
duplicate-free, given that the candidate spans are pairwise equal or
disjoint among themselves and with the spans already processed. -/
theorem statFold_inv (l : List SpacyEnt) : ∀ st : ExtState,
    (∀ e ∈ l, ∀ e' ∈ l, e.span = e'.span ∨ overlapB e.span e'.span = false) →
    (∀ e ∈ l, ∀ p ∈ st.processed, e.span = p ∨ overlapB e.span p = false) →
    StateInv st → st.processed.Nodup →
    StateInv (l.foldl statStep st) ∧ (l.foldl statStep st).processed.Nodup := by
  induction l with
  | nil => intro st _ _ h3 h6; exact ⟨h3, h6⟩
  | cons e rest ih =>
    intro st h1 h2 h3 h6
    rw [List.foldl_cons]
    by_cases hmem : e.span ∈ st.processed
    · have hst : statStep st e = st := by simp [statStep, hmem]
      rw [hst]
      exact ih st (fun a ha b hb => h1 a (.tail _ ha) b (.tail _ hb))
        (fun a ha p hp => h2 a (.tail _ ha) p hp) h3 h6
    · obtain ⟨hp3, hp4, hp5⟩ := h3
      have hdisj : ∀ p ∈ st.processed, overlapB e.span p = false := by
        intro p hp
        rcases h2 e (.head _) p hp with heq | hov
        · exact absurd (heq ▸ hp) hmem
        · exact hov
      have hproc := statStep_processed st e hmem
      refine ih (statStep st e) ?_ ?_ ⟨?_, ?_, ?_⟩ ?_
      · exact fun a ha b hb => h1 a (.tail _ ha) b (.tail _ hb)
      · intro a ha p hp
        rw [hproc] at hp
        rcases List.mem_cons.mp hp with rfl | hp'
        · exact h1 a (.tail _ ha) e (.head _)
        · exact h2 a (.tail _ ha) p hp'
      · rw [hproc]
        exact List.pairwise_cons.mpr ⟨hdisj, hp3⟩
      · intro a ha
        rw [hproc]
        rcases statStep_entities st e hmem with hsame | ⟨x, hx, happ⟩
        · rw [hsame] at ha
          exact List.mem_cons_of_mem _ (hp4 a ha)
        · rw [happ] at ha
          rcases List.mem_append.mp ha with ha' | ha'
          · exact List.mem_cons_of_mem _ (hp4 a ha')
          · have : a = x := List.mem_singleton.mp ha'
            rw [this, hx]
            exact List.mem_cons_self _ _
      · rcases statStep_entities st e hmem with hsame | ⟨x, hx, happ⟩
        · rw [hsame]; exact hp5
        · rw [happ]
          refine List.pairwise_append.mpr ⟨hp5, List.pairwise_singleton _ _, ?_⟩
          intro a ha b hb
          have hb' : b = x := List.mem_singleton.mp hb
          rw [hb', hx]
          exact overlapB_comm_false (hdisj a.span (hp4 a ha))
      · rw [hproc]
        exact List.nodup_cons.mpr ⟨hmem, h6⟩

/-- The legal-term pass preserves the invariant. -/
theorem legalFold_inv (ms : List RegexMatch) : ∀ st : ExtState,
    StateInv st → StateInv (ms.foldl legalStep st) := by
  induction ms with
  | nil => intro st h; exact h
  | cons m rest ih =>
    intro st h3
    rw [List.foldl_cons]
    by_cases hov : st.processed.any (fun p => overlapB m.span p) = true
    · have hst : legalStep st m = st := by simp [legalStep, hov]
      rw [hst]; exact ih st h3
    · obtain ⟨hp3, hp4, hp5⟩ := h3
      have hdisj : ∀ p ∈ st.processed, overlapB m.span p = false := by
        intro p hp
        have := List.any_eq_false.mp (Bool.not_eq_true _ ▸ hov) p hp
        simpa using this
      have hst : legalStep st m =
          ⟨st.entities ++ [⟨m.span, m.text, "LegalTerm"⟩], m.span :: st.processed⟩ := by
        simp [legalStep, hov]
      refine ih (legalStep st m) ⟨?_, ?_, ?_⟩
      · rw [hst]
        exact List.pairwise_cons.mpr ⟨hdisj, hp3⟩
      · intro a ha
        rw [hst] at ha ⊢
        rcases List.mem_append.mp ha with ha' | ha'
        · exact List.mem_cons_of_mem _ (hp4 a ha')
        · have : a = ⟨m.span, m.text, "LegalTerm"⟩ := List.mem_singleton.mp ha'
          rw [this]
          exact List.mem_cons_self _ _
      · rw [hst]
        refine List.pairwise_append.mpr ⟨hp5, List.pairwise_singleton _ _, ?_⟩
        intro a ha b hb
        have hb' : b = ⟨m.span, m.text, "LegalTerm"⟩ := List.mem_singleton.mp hb
        rw [hb']
        exact overlapB_comm_false (hdisj a.span (hp4 a ha))

/-- The legal-term pass only appends: its output is the incoming entity list
followed by `LegalTerm` entities whose spans overlap none of the spans
that were already processed when the pass began. -/
theorem legalFold_append (ms : List RegexMatch) : ∀ st : ExtState,
    ∃ rest, (ms.foldl legalStep st).entities = st.entities ++ rest ∧
      ∀ a ∈ rest, a.type = "LegalTerm" ∧
        ∀ p ∈ st.processed, overlapB a.span p = false := by
  induction ms with
  | nil => intro st; exact ⟨[], by simp, by simp⟩
  | cons m rest ih =>
    intro st
    rw [List.foldl_cons]
    by_cases hov : st.processed.any (fun p => overlapB m.span p) = true
    · have hst : legalStep st m = st := by simp [legalStep, hov]
      rw [hst]; exact ih st
    · have hdisj : ∀ p ∈ st.processed, overlapB m.span p = false := by
        intro p hp
        have := List.any_eq_false.mp (Bool.not_eq_true _ ▸ hov) p hp
        simpa using this
      have hst : legalStep st m =
          ⟨st.entities ++ [⟨m.span, m.text, "LegalTerm"⟩], m.span :: st.processed⟩ := by
        simp [legalStep, hov]
      obtain ⟨r, hr, hprop⟩ := ih (legalStep st m)
      refine ⟨⟨m.span, m.text, "LegalTerm"⟩ :: r, ?_, ?_⟩
      · rw [hr, hst]; simp
      · intro a ha
        rcases List.mem_cons.mp ha with rfl | ha'
        · exact ⟨rfl, hdisj⟩
        · obtain ⟨hty, hsp⟩ := hprop a ha'
          refine ⟨hty, fun p hp => ?_⟩
          apply hsp
          rw [hst]
          exact List.mem_cons_of_mem _ hp

/-- The full single-source extractor satisfies the invariant whenever the
statistical candidates' spans are pairwise equal or disjoint. -/
theorem extract_stateInv (ents : List SpacyEnt) (rmatches : List RegexMatch)
    (H : EqOrDisjoint ents) : StateInv (extract_entitiesSpans ents rmatches) := by
  have hinit : StateInv ⟨[], []⟩ :=
    ⟨List.Pairwise.nil, fun a ha => absurd ha (List.not_mem_nil a), List.Pairwise.nil⟩
  have hstat := statFold_inv ents ⟨[], []⟩ H (fun e _ p hp => absurd hp (List.not_mem_nil p))
    hinit List.nodup_nil
  exact legalFold_inv rmatches _ hstat.1

/-! ## Claims about the merge (`combined_ner.py`, `ner.py`) -/

/-- The no-overlap invariant as claimed of `extract_all_entities`: for every
text (candidate streams) and every combination of source candidate lists,
no two entities in the merged output have overlapping spans. -/
def NoOverlapClaim : Prop :=
  ∀ ents rmatches custom,
    noOverlapsB (extract_all_entitiesSpans ents rmatches custom) = true

/-- Claim C1, counterexample: `extract_all_entities` concatenates the
standard and custom entity lists with no cross-source overlap check, so a
domain-model candidate at the same span as an accepted statistical entity
yields two accepted entities with overlapping spans `(0, 4)`. -/
theorem no_overlap_claim_false : ¬ NoOverlapClaim := fun h =>
  absurd
    (h [⟨"John", "PERSON", 0, 4⟩] [] (.loaded [⟨"John", "CLIENT", 0, 4⟩]))
    (by decide)

/-- Claim C1 (amended): when the statistical candidates' spans are pairwise
equal-or-disjoint (spaCy's guarantee for `doc.ents`) and the domain-trained
source contributes no candidates, the output of `extract_all_entities`
contains no two entities with overlapping spans.  The invariant is
enforced only inside the single-source extractor; the domain-trained
list is concatenated unfiltered. -/
theorem merge_no_overlap_amended (ents : List SpacyEnt) (rmatches : List RegexMatch)
    (custom : CustomModel) (H : EqOrDisjoint ents)
    (Hc : custom_candidates custom = []) :
    noOverlapsB (extract_all_entitiesSpans ents rmatches custom) = true := by
  rw [extract_all_entitiesSpans, Hc, List.append_nil, noOverlapsB_iff]
  exact (extract_stateInv ents rmatches H).2.2

/-- Witness for `merge_no_overlap_amended` at a concrete input. -/
theorem merge_no_overlap_amended_witness :
    EqOrDisjoint [⟨"John", "PERSON", 0, 4⟩, ⟨"x", "ORG", 10, 12⟩] ∧
    custom_candidates .absent = [] ∧
    noOverlapsB (extract_all_entitiesSpans
      [⟨"John", "PERSON", 0, 4⟩, ⟨"x", "ORG", 10, 12⟩]
      [⟨"trust", 2, 7⟩, ⟨"will", 20, 24⟩] .absent) = true :=
  ⟨by unfold EqOrDisjoint; decide, rfl,
    merge_no_overlap_amended [⟨"John", "PERSON", 0, 4⟩, ⟨"x", "ORG", 10, 12⟩]
      [⟨"trust", 2, 7⟩, ⟨"will", 20, 24⟩] .absent (by unfold EqOrDisjoint; decide) rfl⟩

/-- The priority invariant as claimed: a statistical entity always beats an
overlapping domain-model candidate — the merged output keeps the
statistical entity and excludes the domain one. -/
def PriorityClaim : Prop :=
  ∀ ents rmatches custom (a c : AccEntity),
    a ∈ (ents.foldl statStep ⟨[], []⟩).entities →
    c ∈ custom_candidates custom →
    overlapB a.span c.span = true →
    a ∈ extract_all_entitiesSpans ents rmatches custom ∧
    c ∉ extract_all_entitiesSpans ents rmatches custom

/-- Claim C2, counterexample: with a statistical `PERSON` at span `(0, 4)`
and a domain-model `CLIENT` candidate at the same span, the merged output
contains both — the lower-priority candidate is not excluded, because
`extract_all_entities` performs no cross-source conflict resolution. -/
theorem priority_claim_false : ¬ PriorityClaim := fun h =>
  (h [⟨"John", "PERSON", 0, 4⟩] [] (.loaded [⟨"John", "CLIENT", 0, 4⟩])
      ⟨(0, 4), "John", "Name"⟩ ⟨(0, 4), "John", "CLIENT"⟩
      (by decide) (by decide) (by decide)).2 (by decide)

/-- Claim C2 (amended): priority exists only between the two passes of the
single-source extractor: every statistical entity is kept, and every
entity the lexicon pass adds is a `LegalTerm` whose span overlaps no span
recorded by the statistical pass — so a lexicon candidate overlapping a
statistical span is dropped, regardless of its position in the match
stream.  The domain-trained source takes part in no such resolution. -/
theorem priority_amended (ents : List SpacyEnt) (rmatches : List RegexMatch) :
    ∃ rest, (extract_entitiesSpans ents rmatches).entities =
        (ents.foldl statStep ⟨[], []⟩).entities ++ rest ∧
      ∀ a ∈ rest, a.type = "LegalTerm" ∧
        ∀ p ∈ (ents.foldl statStep ⟨[], []⟩).processed, overlapB a.span p = false :=
  legalFold_append rmatches (ents.foldl statStep ⟨[], []⟩)

/-- Witness for `priority_amended` at a concrete input. -/
theorem priority_amended_witness :
    ∃ rest, (extract_entitiesSpans [⟨"John", "PERSON", 0, 4⟩]
        [⟨"trust", 2, 7⟩, ⟨"will", 20, 24⟩]).entities =
        ([⟨"John", "PERSON", 0, 4⟩].foldl statStep ⟨[], []⟩).entities ++ rest ∧
      ∀ a ∈ rest, a.type = "LegalTerm" ∧
        ∀ p ∈ ([⟨"John", "PERSON", 0, 4⟩].foldl statStep ⟨[], []⟩).processed,
          overlapB a.span p = false :=
  priority_amended [⟨"John", "PERSON", 0, 4⟩] [⟨"trust", 2, 7⟩, ⟨"will", 20, 24⟩]

/-- Claim C9: inside `extract_entities` the recorded spans are pairwise
non-overlapping at every step — after any prefix of the statistical
candidates the processed spans are also duplicate-free, and after any
prefix of the legal-term matches both the processed spans and the emitted
entities remain pairwise non-overlapping — provided the statistical
candidates' spans are pairwise equal or disjoint (spaCy's guarantee). -/
theorem single_source_invariant (ents : List SpacyEnt) (rmatches : List RegexMatch)
    (H : EqOrDisjoint ents) (n m : Nat) :
    ((ents.take n).foldl statStep ⟨[], []⟩).processed.Nodup ∧
    disjointSpansB (extract_entitiesSpans (ents.take n) (rmatches.take m)).processed = true ∧
    noOverlapsB (extract_entitiesSpans (ents.take n) (rmatches.take m)).entities = true := by
  have Ht : EqOrDisjoint (ents.take n) := fun e he e' he' =>
    H e (List.take_subset n ents he) e' (List.take_subset n ents he')
  have hinit : StateInv ⟨[], []⟩ :=
    ⟨List.Pairwise.nil, fun a ha => absurd ha (List.not_mem_nil a), List.Pairwise.nil⟩
  have hstat := statFold_inv (ents.take n) ⟨[], []⟩ Ht
    (fun e _ p hp => absurd hp (List.not_mem_nil p)) hinit List.nodup_nil
  have hfull := legalFold_inv (rmatches.take m) _ hstat.1
  exact ⟨hstat.2, (disjointSpansB_iff _).mpr hfull.1, (noOverlapsB_iff _).mpr hfull.2.2⟩

/-- Witness for `single_source_invariant` at a concrete input. -/
theorem single_source_invariant_witness :
    EqOrDisjoint [⟨"John", "PERSON", 0, 4⟩, ⟨"x", "ORG", 10, 12⟩] ∧
    (([⟨"John", "PERSON", 0, 4⟩, ⟨"x", "ORG", 10, 12⟩].take 2).foldl
        statStep ⟨[], []⟩).processed.Nodup ∧
    disjointSpansB (extract_entitiesSpans
      ([⟨"John", "PERSON", 0, 4⟩, ⟨"x", "ORG", 10, 12⟩].take 2)
      ([⟨"trust", 2, 7⟩, ⟨"will", 20, 24⟩].take 1)).processed = true ∧
    noOverlapsB (extract_entitiesSpans
      ([⟨"John", "PERSON", 0, 4⟩, ⟨"x", "ORG", 10, 12⟩].take 2)
      ([⟨"trust", 2, 7⟩, ⟨"will", 20, 24⟩].take 1)).entities = true :=
  ⟨by unfold EqOrDisjoint; decide,
    single_source_invariant [⟨"John", "PERSON", 0, 4⟩, ⟨"x", "ORG", 10, 12⟩]
      [⟨"trust", 2, 7⟩, ⟨"will", 20, 24⟩] (by unfold EqOrDisjoint; decide) 2 1⟩

/-- Claim C8: when the domain-trained model is absent at the given path, or
present but raising during `spacy.load`, `extract_all_entities` treats the
custom candidate list as empty and returns exactly the standard entities;
being a total function, the merge raises nothing. -/
theorem extract_all_soft_degrade (ents : List SpacyEnt) (rmatches : List RegexMatch)
    (custom : CustomModel)
    (h : custom = CustomModel.absent ∨ ∃ msg, custom = CustomModel.loadFailure msg) :
    extract_all_entities ents rmatches custom = extract_entities ents rmatches := by
  rcases h with rfl | ⟨msg, rfl⟩ <;>
    simp [extract_all_entities, extract_all_entitiesSpans, custom_candidates,
      extract_entities]

/-- Witness for `extract_all_soft_degrade` at a concrete input. -/
theorem extract_all_soft_degrade_witness :
    ((CustomModel.loadFailure "no such model" = CustomModel.absent ∨
        ∃ msg, CustomModel.loadFailure "no such model" = CustomModel.loadFailure msg) ∧
      extract_all_entities [⟨"John", "PERSON", 0, 4⟩] [⟨"trust", 10, 15⟩]
        (CustomModel.loadFailure "no such model") =
      extract_entities [⟨"John", "PERSON", 0, 4⟩] [⟨"trust", 10, 15⟩]) :=
  ⟨Or.inr ⟨"no such model", rfl⟩,
    extract_all_soft_degrade [⟨"John", "PERSON", 0, 4⟩] [⟨"trust", 10, 15⟩]
      (CustomModel.loadFailure "no such model") (Or.inr ⟨"no such model", rfl⟩)⟩

/-! ## Claims about the dataset store (`evaluation.py` load/save) -/

theorem alookup_assocSet {α : Type} (l : List (String × α)) (k t : String) (v : α) :
    alookup (assocSet l k v) t = if k = t then some v else alookup l t := by
  induction l with
  | nil =>
    by_cases h : k = t <;> simp [assocSet, alookup, h]
  | cons p rest ih =>
    by_cases hp : p.1 = k
    · by_cases ht : k = t
      · simp [assocSet, hp, alookup, ht]
      · have hpt : ¬ p.1 = t := fun hc => ht (hp ▸ hc)
        simp [assocSet, hp, alookup, ht, hpt]
    · by_cases hpt : p.1 = t
      · have ht : ¬ k = t := fun hc => hp (by rw [hpt, hc])
        have htk : ¬ t = k := fun hc => ht hc.symm
        simp [assocSet, hp, alookup, hpt, ht, htk]
      · simp [assocSet, hp, alookup, hpt, ih]

/-- The claimed behaviour of `load_test_dataset` on an absent file: it fails
with a not-found error surfaced to the caller. -/
def LoadNotFoundClaim : Prop :=
  ∀ (fs : FS) (path : String) (td : JVal), alookup fs path = none →
    ∃ e, load_test_dataset fs path td = .error e

/-- Claim C3, counterexample: loading from a path that exists in no file
system returns `.ok` — the `os.path.exists` guard makes the method fall
through silently, so no error of any kind is surfaced. -/
theorem load_notfound_claim_false : ¬ LoadNotFoundClaim := fun h =>
  match h [] "missing.json" (.jarr []) rfl with
  | ⟨_, he⟩ => Except.noConfusion he

/-- Claim C3 (amended): loading a dataset from a path where no file exists
leaves `test_data` unchanged and returns without any error; the absence of
the file is silently swallowed, not surfaced. -/
theorem load_missing_silent (fs : FS) (path : String) (td : JVal)
    (h : alookup fs path = none) :
    load_test_dataset fs path td = .ok td := by
  simp [load_test_dataset, h]

/-- Witness for `load_missing_silent` at a concrete input. -/
theorem load_missing_silent_witness :
    alookup ([] : FS) "missing.json" = none ∧
    load_test_dataset [] "missing.json" (.jarr []) = .ok (.jarr []) :=
  ⟨rfl, load_missing_silent [] "missing.json" (.jarr []) rfl⟩

theorem decodeList_encode {α : Type} (f : α → JVal) (g : JVal → Option α)
    (h : ∀ a, g (f a) = some a) (l : List α) :
    decodeList g (l.map f) = some l := by
  induction l with
  | nil => rfl
  | cons a rest ih => simp [decodeList, h, ih]

theorem decodeEntity_encodeEntity (e : Entity) : decodeEntity (encodeEntity e) = some e := rfl

theorem decodeCase_encodeCase (c : TestCase) : decodeCase (encodeCase c) = some c := by
  simp [decodeCase, encodeCase,
    decodeList_encode encodeEntity decodeEntity decodeEntity_encodeEntity]

theorem decodeDataset_encodeDataset (d : List TestCase) :
    decodeDataset (encodeDataset d) = some d := by
  simp [decodeDataset, encodeDataset,
    decodeList_encode encodeCase decodeCase decodeCase_encodeCase]

/-- Claim C6: for a dataset containing a case with a non-ASCII character and
a case with an empty entity list, saving to a path (with a directory
component, so that the save succeeds) and loading from that path
reproduces the dataset exactly, field for field. -/
theorem dataset_roundtrip (fs : FS) (path : String) (D : List TestCase) (td : JVal)
    (hdir : dirname path ≠ "")
    (_hna : D.any caseHasNonAscii = true)
    (_hemp : D.any (fun c => c.entities.isEmpty) = true) :
    ∃ fs', save_test_dataset fs path (encodeDataset D) = .ok fs' ∧
      load_test_dataset fs' path td = .ok (encodeDataset D) ∧
      decodeDataset (encodeDataset D) = some D := by
  refine ⟨assocSet fs path (encodeDataset D), ?_, ?_, decodeDataset_encodeDataset D⟩
  · simp [save_test_dataset, hdir]
  · simp [load_test_dataset, alookup_assocSet]

/-- Witness for `dataset_roundtrip` at a concrete dataset with a non-ASCII
case and an empty-entities case. -/
theorem dataset_roundtrip_witness :
    dirname "data/out.json" ≠ "" ∧
    [(⟨"José", [⟨"José", "Name"⟩]⟩ : TestCase), ⟨"plain case", []⟩].any caseHasNonAscii = true ∧
    [(⟨"José", [⟨"José", "Name"⟩]⟩ : TestCase), ⟨"plain case", []⟩].any
      (fun c => c.entities.isEmpty) = true ∧
    ∃ fs', save_test_dataset [] "data/out.json"
        (encodeDataset [⟨"José", [⟨"José", "Name"⟩]⟩, ⟨"plain case", []⟩]) = .ok fs' ∧
      load_test_dataset fs' "data/out.json" (.jarr []) =
        .ok (encodeDataset [⟨"José", [⟨"José", "Name"⟩]⟩, ⟨"plain case", []⟩]) ∧
      decodeDataset (encodeDataset [⟨"José", [⟨"José", "Name"⟩]⟩, ⟨"plain case", []⟩]) =
        some [⟨"José", [⟨"José", "Name"⟩]⟩, ⟨"plain case", []⟩] :=
  ⟨by decide, by decide, by decide,
    dataset_roundtrip [] "data/out.json" [⟨"José", [⟨"José", "Name"⟩]⟩, ⟨"plain case", []⟩]
      (.jarr []) (by decide) (by decide) (by decide)⟩

/-- Claim C10: saving to a path with no directory component raises instead
of writing, because `save_test_dataset` unconditionally calls
`os.makedirs(os.path.dirname(file_path), exist_ok=True)` and
`os.path.dirname("out.json")` is the empty string, on which `os.makedirs`
raises `FileNotFoundError`. -/
theorem save_bare_filename (fs : FS) (td : JVal) :
    save_test_dataset fs "out.json" td = .error .notFound := by
  have h : dirname "out.json" = "" := by decide
  simp [save_test_dataset, h]

/-! ## Claims about `evaluate_predictions` -/

/-- The ground truth of the spec's worked scenario. -/
def gtScenario : List Entity :=
  [⟨"John Smith", "Name"⟩, ⟨"March 15, 2024", "Date"⟩]

/-- The predictions of the spec's worked scenario: the Name is exact, the
Date text differs ("March 15" vs "March 15, 2024"). -/
def prScenario : List Entity :=
  [⟨"John Smith", "Name"⟩, ⟨"March 15", "Date"⟩]

/-- Claim C4: on the spec's worked scenario the result is exactly: Name
scores precision = recall = f1 = 1, Date scores 0 (no partial credit for
the differing text), and overall — whose membership test ignores the
type — scores 1/2 on all three. -/
theorem evaluate_predictions_scenario :
    evaluate_predictions gtScenario prScenario =
      [("Name", ⟨1, 1, 1⟩), ("Date", ⟨0, 0, 0⟩), ("overall", ⟨1/2, 1/2, 1/2⟩)] := by
  have hty : entityTypesOf gtScenario prScenario = ["Name", "Date"] := by decide
  have hlenN : 0 < (binLabels gtScenario prScenario "Name"
      (allEntitiesOf gtScenario prScenario)).length := by decide
  have hlenD : 0 < (binLabels gtScenario prScenario "Date"
      (allEntitiesOf gtScenario prScenario)).length := by decide
  have hName : typeMetrics gtScenario prScenario "Name" = ⟨1, 1, 1⟩ := by
    have h1 : tpCount (binLabels gtScenario prScenario "Name"
        (allEntitiesOf gtScenario prScenario)) = 1 := by decide
    have h2 : fpCount (binLabels gtScenario prScenario "Name"
        (allEntitiesOf gtScenario prScenario)) = 0 := by decide
    have h3 : fnCount (binLabels gtScenario prScenario "Name"
        (allEntitiesOf gtScenario prScenario)) = 0 := by decide
    norm_num [typeMetrics, precision_score, recall_score, f1_score, h1, h2, h3]
  have hDate : typeMetrics gtScenario prScenario "Date" = ⟨0, 0, 0⟩ := by
    have h1 : tpCount (binLabels gtScenario prScenario "Date"
        (allEntitiesOf gtScenario prScenario)) = 0 := by decide
    have h2 : fpCount (binLabels gtScenario prScenario "Date"
        (allEntitiesOf gtScenario prScenario)) = 1 := by decide
    have h3 : fnCount (binLabels gtScenario prScenario "Date"
        (allEntitiesOf gtScenario prScenario)) = 1 := by decide
    norm_num [typeMetrics, precision_score, recall_score, f1_score, h1, h2, h3]
  have hOv : overallMetrics gtScenario prScenario = ⟨1/2, 1/2, 1/2⟩ := by
    have h1 : tpCount (overallLabels gtScenario prScenario
        (allEntitiesOf gtScenario prScenario)) = 1 := by decide
    have h2 : fpCount (overallLabels gtScenario prScenario
        (allEntitiesOf gtScenario prScenario)) = 1 := by decide
    have h3 : fnCount (overallLabels gtScenario prScenario
        (allEntitiesOf gtScenario prScenario)) = 1 := by decide
    norm_num [overallMetrics, precision_score, recall_score, f1_score, h1, h2, h3]
  simp [evaluate_predictions, hty, hlenN, hlenD, hName, hDate, hOv, assocSet]

/-- Claim C5: with empty ground truth and empty predictions the result is
exactly the `"overall"` entry with every metric the defined value `0` —
no per-type keys and no error. -/
theorem evaluate_predictions_empty :
    evaluate_predictions [] [] = [("overall", ⟨0, 0, 0⟩)] := by
  have hov : overallMetrics [] [] = ⟨0, 0, 0⟩ := by
    norm_num [overallMetrics, precision_score, recall_score, f1_score,
      tpCount, fpCount, fnCount, overallLabels, allEntitiesOf, distinctList]
  simp [evaluate_predictions, entityTypesOf, distinctList, hov, assocSet]

/-! ## Claim C7: dataset-level averaging in `evaluate_model` -/

/-- The metric records attached to key `t` in one case's result, in order. -/
def tvals (rs : List (String × Metrics)) (t : String) : List Metrics :=
  (rs.filter fun p => p.1 = t).map Prod.snd

/-- Append a batch of metric records to the accumulated per-metric lists. -/
def extendML (ml : MetricLists) (l : List Metrics) : MetricLists :=
  ⟨ml.precisions ++ l.map Metrics.precision,
    ml.recalls ++ l.map Metrics.«recall»,
    ml.f1s ++ l.map Metrics.f1⟩

/-- The concatenation, over all cases, of the metric records attached to `t`. -/
def catScores (per : List (List (String × Metrics))) (t : String) : List Metrics :=
  per.foldr (fun rs acc => tvals rs t ++ acc) []

theorem extendML_comp (ml : MetricLists) (l1 l2 : List Metrics) :
    extendML (extendML ml l1) l2 = extendML ml (l1 ++ l2) := by
  simp [extendML, List.append_assoc]

theorem aggStep_eq (ar : List (String × MetricLists)) (p : String × Metrics) :
    aggStep ar p = assocSet ar p.1 (extendML ((alookup ar p.1).getD emptyLists) [p.2]) :=
  rfl

/-- Folding one case's result into `all_results` appends, at key `t`,
exactly the records that case attaches to `t`. -/
theorem aggCase (rs : List (String × Metrics)) : ∀ (ar : List (String × MetricLists))
    (t : String),
    alookup (rs.foldl aggStep ar) t =
      if tvals rs t = [] then alookup ar t
      else some (extendML ((alookup ar t).getD emptyLists) (tvals rs t)) := by
  induction rs with
  | nil => intro ar t; simp [tvals]
  | cons p rs ih =>
    intro ar t
    rw [List.foldl_cons]
    by_cases hpt : p.1 = t
    · have htv : tvals (p :: rs) t = p.2 :: tvals rs t := by
        simp [tvals, List.filter_cons, hpt]
      have har : alookup (aggStep ar p) t =
          some (extendML ((alookup ar t).getD emptyLists) [p.2]) := by
        rw [aggStep_eq, alookup_assocSet]
        simp [hpt]
      rw [ih (aggStep ar p) t, har, htv]
      by_cases hnil : tvals rs t = []
      · simp [hnil]
      · simp only [hnil, if_false, Option.getD_some, extendML_comp, List.singleton_append]
        simp
    · have htv : tvals (p :: rs) t = tvals rs t := by
        simp [tvals, List.filter_cons, hpt]
      have har : alookup (aggStep ar p) t = alookup ar t := by
        rw [aggStep_eq, alookup_assocSet]
        simp [hpt]
      rw [ih (aggStep ar p) t, har, htv]

/-- Folding every case's result into `all_results` ends with, at key `t`,
exactly the concatenation of the records the cases attach to `t` —
cases without the key contribute nothing. -/
theorem aggAll (per : List (List (String × Metrics))) : ∀ (ar : List (String × MetricLists))
    (t : String),
    alookup (per.foldl (fun a rs => rs.foldl aggStep a) ar) t =
      if catScores per t = [] then alookup ar t
      else some (extendML ((alookup ar t).getD emptyLists) (catScores per t)) := by
  induction per with
  | nil => intro ar t; simp [catScores]
  | cons rs per ih =>
    intro ar t
    rw [List.foldl_cons]
    have hcat : catScores (rs :: per) t = tvals rs t ++ catScores per t := rfl
    rw [ih (rs.foldl aggStep ar) t, aggCase rs ar t, hcat]
    by_cases h1 : tvals rs t = [] <;> by_cases h2 : catScores per t = [] <;>
      simp [h1, h2, extendML_comp]

theorem mem_keys_assocSet {α : Type} (l : List (String × α)) (k : String) (v : α)
    (x : String) :
    x ∈ (assocSet l k v).map Prod.fst ↔ x ∈ l.map Prod.fst ∨ x = k := by
  induction l with
  | nil => simp [assocSet]
  | cons p rest ih =>
    by_cases hp : p.1 = k
    · rw [show assocSet (p :: rest) k v = (k, v) :: rest from by simp [assocSet, hp]]
      simp only [List.map_cons, List.mem_cons, hp]
      tauto
    · rw [show assocSet (p :: rest) k v = p :: assocSet rest k v from by
        simp [assocSet, hp]]
      simp only [List.map_cons, List.mem_cons, ih]
      tauto

theorem assocSet_keys_nodup {α : Type} (l : List (String × α)) (k : String) (v : α)
    (h : (l.map Prod.fst).Nodup) : ((assocSet l k v).map Prod.fst).Nodup := by
  induction l with
  | nil => simp [assocSet]
  | cons p rest ih =>
    rw [List.map_cons, List.nodup_cons] at h
    obtain ⟨hp1, h2⟩ := h
    by_cases hp : p.1 = k
    · simp only [assocSet, if_pos hp, List.map_cons, List.nodup_cons]
      exact ⟨hp ▸ hp1, h2⟩
    · simp only [assocSet, if_neg hp, List.map_cons, List.nodup_cons]
      refine ⟨?_, ih h2⟩
      rw [mem_keys_assocSet]
      rintro (hmem | heq)
      · exact hp1 hmem
      · exact hp heq

/-- When a result's keys are duplicate-free, the records attached to `t`
are exactly what one dict lookup returns. -/
theorem tvals_eq_alookup (rs : List (String × Metrics)) (t : String)
    (h : (rs.map Prod.fst).Nodup) : tvals rs t = (alookup rs t).toList := by
  induction rs with
  | nil => rfl
  | cons p rest ih =>
    rw [List.map_cons, List.nodup_cons] at h
    obtain ⟨hp1, h2⟩ := h
    by_cases hpt : p.1 = t
    · have hnone : ∀ a ∈ rest, ¬ (a.1 = t) := by
        intro a ha hat
        exact hp1 (by rw [hpt, ← hat]; exact List.mem_map_of_mem Prod.fst ha)
      have hrest : tvals rest t = [] := by
        rw [tvals, List.map_eq_nil_iff, List.filter_eq_nil_iff]
        intro a hab
        simpa using hnone a hab
      have hcons : tvals (p :: rest) t = p.2 :: tvals rest t := by
        simp [tvals, List.filter_cons, hpt]
      rw [hcons, hrest]
      simp [alookup, hpt]
    · simp only [tvals, List.filter_cons] at ih ⊢
      simp [hpt, alookup, ih h2]

theorem catScores_eq_filterMap (per : List (List (String × Metrics))) (t : String)
    (h : ∀ rs ∈ per, (rs.map Prod.fst).Nodup) :
    catScores per t = per.filterMap fun rs => alookup rs t := by
  induction per with
  | nil => rfl
  | cons rs per ih =>
    have h1 := h rs (List.mem_cons_self _ _)
    have h2 : ∀ x ∈ per, (x.map Prod.fst).Nodup :=
      fun x hx => h x (List.mem_cons_of_mem _ hx)
    have hcons : catScores (rs :: per) t = tvals rs t ++ catScores per t := rfl
    rw [List.filterMap_cons, hcons, tvals_eq_alookup rs t h1, ih h2]
    cases alookup rs t <;> simp

/-- `evaluate_predictions` produces a dict: its keys are duplicate-free. -/
theorem evaluate_predictions_keys_nodup (te pe : List Entity) :
    ((evaluate_predictions te pe).map Prod.fst).Nodup := by
  have hgen : ∀ (ts : List String) (r : List (String × Metrics)),
      (r.map Prod.fst).Nodup →
      ((ts.foldl (fun r t =>
        if 0 < (binLabels te pe t (allEntitiesOf te pe)).length then
          assocSet r t (typeMetrics te pe t)
        else r) r).map Prod.fst).Nodup := by
    intro ts
    induction ts with
    | nil => intro r h; exact h
    | cons t ts ih =>
      intro r h
      rw [List.foldl_cons]
      by_cases hc : 0 < (binLabels te pe t (allEntitiesOf te pe)).length
      · rw [if_pos hc]; exact ih _ (assocSet_keys_nodup r t _ h)
      · rw [if_neg hc]; exact ih r h
  exact assocSet_keys_nodup _ "overall" _ (hgen (entityTypesOf te pe) [] (by simp))

theorem alookup_final (l : List (String × MetricLists)) (t : String) :
    alookup (l.map fun p =>
      (p.1, (⟨mean p.2.precisions, mean p.2.recalls, mean p.2.f1s⟩ : Metrics))) t =
    (alookup l t).map fun ml =>
      (⟨mean ml.precisions, mean ml.recalls, mean ml.f1s⟩ : Metrics) := by
  induction l with
  | nil => rfl
  | cons p rest ih => by_cases hp : p.1 = t <;> simp [alookup, hp, ih]

/-- Claim C7: in `evaluate_model`, for every key `t` (an entity type or
`"overall"`) that appears in at least one case's per-case result, the
final metric is the arithmetic mean of that metric over exactly the cases
whose result contains `t`; a case lacking the key contributes no term. -/
theorem evaluate_model_mean (test_data : List TestCase) (pf : String → List Entity)
    (t : String) (scores : List Metrics)
    (hs : scores = (test_data.map fun tc =>
      evaluate_predictions tc.entities (pf tc.text)).filterMap fun r => alookup r t)
    (hne : scores ≠ []) :
    alookup (evaluate_model test_data pf) t =
      some ⟨mean (scores.map Metrics.precision), mean (scores.map Metrics.«recall»),
        mean (scores.map Metrics.f1)⟩ := by
  subst hs
  set per := test_data.map fun tc => evaluate_predictions tc.entities (pf tc.text) with hper
  have hnodup : ∀ rs ∈ per, (rs.map Prod.fst).Nodup := by
    intro rs hrs
    rw [hper] at hrs
    obtain ⟨tc, _, rfl⟩ := List.mem_map.mp hrs
    exact evaluate_predictions_keys_nodup _ _
  have hm : evaluate_model test_data pf = (test_data.foldl (fun ar tc =>
      (evaluate_predictions tc.entities (pf tc.text)).foldl aggStep ar) []).map
      (fun p => (p.1, ⟨mean p.2.precisions, mean p.2.recalls, mean p.2.f1s⟩)) := rfl
  have hfold : test_data.foldl (fun ar tc =>
      (evaluate_predictions tc.entities (pf tc.text)).foldl aggStep ar) [] =
      per.foldl (fun a rs => rs.foldl aggStep a) [] := by
    rw [hper]
    exact (List.foldl_map _ _ _ _).symm
  have hagg := aggAll per [] t
  rw [catScores_eq_filterMap per t hnodup] at hagg
  rw [if_neg hne] at hagg
  rw [hm, hfold, alookup_final, hagg]
  simp [extendML, emptyLists, alookup]

/-- The dataset used to witness `evaluate_model_mean`: one case where the
scenario types appear, one case with empty ground truth. -/
def tdWitness : List TestCase := [⟨"a", gtScenario⟩, ⟨"b", []⟩]

/-- The prediction function used to witness `evaluate_model_mean`. -/
def pfWitness : String → List Entity := fun t => if t = "a" then prScenario else []

/-- Witness for `evaluate_model_mean` at a concrete dataset, prediction
function and key. -/
theorem evaluate_model_mean_witness :
    ((tdWitness.map fun tc => evaluate_predictions tc.entities (pfWitness tc.text)).filterMap
        fun r => alookup r "Name") ≠ [] ∧
    alookup (evaluate_model tdWitness pfWitness) "Name" =
      some ⟨mean ((((tdWitness.map fun tc =>
          evaluate_predictions tc.entities (pfWitness tc.text)).filterMap
          fun r => alookup r "Name").map Metrics.precision)),
        mean ((((tdWitness.map fun tc =>
          evaluate_predictions tc.entities (pfWitness tc.text)).filterMap
          fun r => alookup r "Name").map Metrics.«recall»)),
        mean ((((tdWitness.map fun tc =>
          evaluate_predictions tc.entities (pfWitness tc.text)).filterMap
          fun r => alookup r "Name").map Metrics.f1))⟩ :=
  ⟨by decide, evaluate_model_mean tdWitness pfWitness "Name" _ rfl (by decide)⟩

end NER
